import Mathlib

/-!
Verification of the LinChat streaming-message subsystem.

Shallow embedding of:
* `PartsBuilder` / `TimingTracker` (app/composables/partsBuilder.js),
* the delta-stream reader and tool-execution loop of `handleIncomingMessage`
  (app/composables/availableModels.js, message.js section),
* the chunk-folding and history-filter logic of `useMessagesManager.sendMessage`
  (app/composables/useMessagesManager.js).

JavaScript conventions used throughout the embedding:
* an optional string field (`undefined`/`null`/present) is `Option String`;
  JS truthiness on such a field (`if (x)`) is `jsTruthy`;
* JS `a || b` on strings is `jsOr`; `a || null` is `orNull`;
* in-place mutation of the parts array becomes explicit state passing.
-/

namespace LinChat

/-- JavaScript truthiness of an optional string field: `undefined`, `null`
and `""` are falsy, every other string is truthy. -/
def jsTruthy : Option String → Bool
  | none => false
  | some s => s ≠ ""

/-- JS `a || b` for an optional string `a` and a string default `b`. -/
def jsOr (a : Option String) (b : String) : String :=
  match a with
  | some s => if s ≠ "" then s else b
  | none => b

/-- JS `a || null` for an optional string: an empty string collapses to `null`. -/
def orNull (a : Option String) : Option String :=
  if jsTruthy a then a else none

/-- JS `s.trim()`: strip whitespace from both ends. Implemented directly on
the character list so that it evaluates by the kernel. -/
def jsTrim (s : String) : String :=
  ⟨((s.data.dropWhile Char.isWhitespace).reverse.dropWhile
      Char.isWhitespace).reverse⟩

/-- JS `a || b` where both sides are optional strings. -/
def jsOrOpt (a b : Option String) : Option String :=
  if jsTruthy a then a else b

/-- One accumulated tool call inside a `tool_group` part.
Mirrors the object built by `PartsBuilder.addOrUpdateTool`:
`{ index, id, type, function: { name, arguments }, result? }`.
The nested `function` object is flattened into `name`/`arguments`. -/
structure Tool where
  index : Nat
  id : Option String
  type_ : String
  name : String
  arguments : String
  result : Option String := none
  deriving Repr, DecidableEq

/-- One entry of an `image` part: `{ url, revised_prompt }`. -/
structure ImageEntry where
  url : String
  revised_prompt : Option String
  deriving Repr, DecidableEq

/-- A part of the structured assistant message, as built by `PartsBuilder`. -/
inductive Part where
  | content (text : String)
  | reasoning (text : String)
  | tool_group (toolType : Option String) (tools : List Tool)
  | image (images : List ImageEntry)
  deriving Repr, DecidableEq

/-- The kind of a part, together with the `toolType` key for tool groups.
Adjacency constraints of the builder depend only on this information. -/
inductive PartKind where
  | content
  | reasoning
  | image
  | tool_group (toolType : Option String)
  deriving Repr, DecidableEq

/-- Kind of a part. -/
def Part.kind : Part → PartKind
  | .content _ => .content
  | .reasoning _ => .reasoning
  | .tool_group tt _ => .tool_group tt
  | .image _ => .image

/-- Two adjacent parts of these kinds would be merged by the builder
(the adjacency the spec's invariant rules out): content next to content,
image next to image, or tool groups with the same `toolType`. -/
def PartKind.mergeableWith : PartKind → PartKind → Bool
  | .content, .content => true
  | .image, .image => true
  | .tool_group a, .tool_group b => decide (a = b)
  | _, _ => false

/-- The invariant claimed by the spec: the parts sequence never contains two
adjacent content parts, two adjacent image parts, or two adjacent tool_group
parts with the same `toolType`. -/
def Sep (parts : List Part) : Prop :=
  List.Chain' (fun a b => PartKind.mergeableWith a b = false) (parts.map Part.kind)

/-- The `function` fragment of a `tool_call_delta`: `{ name?, arguments? }`. -/
structure FnDelta where
  name : Option String := none
  arguments : Option String := none
  deriving Repr, DecidableEq

/-- A raw tool-call delta object from the stream:
`{ index, id?, type?, function? }`. -/
structure ToolCallDelta where
  index : Nat
  id : Option String := none
  type_ : Option String := none
  function : Option FnDelta := none
  deriving Repr, DecidableEq

/-- JS `toolData.function?.name`. -/
def ToolCallDelta.fnName (d : ToolCallDelta) : Option String :=
  d.function.bind (·.name)

/-- JS `toolData.function?.arguments`. -/
def ToolCallDelta.fnArgs (d : ToolCallDelta) : Option String :=
  d.function.bind (·.arguments)

/-- An image object from the API response, as consumed by
`PartsBuilder.processImage`. `image_url_url` stands for the nested optional
access `image.image_url?.url`. -/
structure ImageObj where
  image_url_url : Option String := none
  url : Option String := none
  revised_prompt : Option String := none
  deriving Repr, DecidableEq

namespace PartsBuilder

/-- Skeleton shared by the builder's `getOrCreatePart`-then-mutate pattern:
if the last part is reusable (`f p = some p'` gives the mutated reuse),
replace it in place; otherwise push the freshly created (already updated)
part `fresh` at the end. On the empty array the fresh part is pushed. -/
def mutateLast (f : Part → Option Part) (fresh : Part) : List Part → List Part
  | [] => [fresh]
  | [p] =>
    match f p with
    | some p' => [p']
    | none => [p, fresh]
  | p :: q :: rest => p :: mutateLast f fresh (q :: rest)

/-- `PartsBuilder.appendContent(text)`: no-op on falsy text, else append to a
reused last content part or push a new content part (created with `''` then
appended, i.e. holding exactly `text`). -/
def appendContent (parts : List Part) (text : String) : List Part :=
  if text = "" then parts
  else
    mutateLast
      (fun p =>
        match p with
        | .content c => some (.content (c ++ text))
        | _ => none)
      (.content ("" ++ text)) parts

/-- The merge rule of `PartsBuilder.appendReasoning` applied to the reused or
fresh reasoning part: replace when the accumulated text is all whitespace and
the fragment is not, else append. -/
def reasoningMerge (c text : String) : String :=
  if jsTrim c = "" ∧ jsTrim text ≠ "" then text else c ++ text

/-- `PartsBuilder.appendReasoning(text)`: ignore falsy text and the `"None"`
sentinel (`text.trim() === 'None'`), else merge into the last reasoning part
or push a new one (created with content `''`, then merged). -/
def appendReasoning (parts : List Part) (text : String) : List Part :=
  if text = "" ∨ jsTrim text = "None" then parts
  else
    mutateLast
      (fun p =>
        match p with
        | .reasoning c => some (.reasoning (reasoningMerge c text))
        | _ => none)
      (.reasoning (reasoningMerge "" text)) parts

/-- `PartsBuilder.addImage(url, revisedPrompt)`: no-op on falsy url, else push
the image entry into a reused last image part or a new image part. -/
def addImage (parts : List Part) (url : String) (revisedPrompt : Option String) :
    List Part :=
  if url = "" then parts
  else
    mutateLast
      (fun p =>
        match p with
        | .image ims => some (.image (ims ++ [⟨url, revisedPrompt⟩]))
        | _ => none)
      (.image [⟨url, revisedPrompt⟩]) parts

/-- `PartsBuilder.processImage(image)`: normalize
`image.image_url?.url || image.url`, take `image.revised_prompt || null`, and
add the image when the url is truthy. -/
def processImage (parts : List Part) (img : ImageObj) : List Part :=
  let url := if jsTruthy img.image_url_url then img.image_url_url else img.url
  if jsTruthy url then addImage parts (url.getD "") (orNull img.revised_prompt)
  else parts

/-- Field update of an existing tool by a delta, as in
`PartsBuilder.addOrUpdateTool` (name overwritten when truthy, arguments
appended when truthy, id and type overwritten when truthy). -/
def updateTool (d : ToolCallDelta) (t : Tool) : Tool :=
  { t with
    name := if jsTruthy d.fnName then d.fnName.getD "" else t.name
    arguments :=
      if jsTruthy d.fnArgs then t.arguments ++ d.fnArgs.getD "" else t.arguments
    id := if jsTruthy d.id then d.id else t.id
    type_ := if jsTruthy d.type_ then d.type_.getD "" else t.type_ }

/-- The fresh tool entry created by `PartsBuilder.addOrUpdateTool` when no
tool with the delta's index exists:
`{ index, id: id || null, type: type || 'function',
   function: { name: name || '', arguments: arguments || '' } }`. -/
def newTool (d : ToolCallDelta) : Tool :=
  { index := d.index
    id := orNull d.id
    type_ := if jsTruthy d.type_ then d.type_.getD "" else "function"
    name := if jsTruthy d.fnName then d.fnName.getD "" else ""
    arguments := if jsTruthy d.fnArgs then d.fnArgs.getD "" else ""
    result := none }

/-- `part.tools.find(t => t.index === toolData.index)` followed by either the
in-place update of the first match or `tools.push(newTool)`. -/
def updateToolList (ts : List Tool) (d : ToolCallDelta) : List Tool :=
  match ts with
  | [] => [newTool d]
  | t :: rest =>
    if t.index = d.index then updateTool d t :: rest
    else t :: updateToolList rest d

/-- `PartsBuilder.addOrUpdateTool(toolType, toolData)`: reuse the last part
only when it is a tool group with the same `toolType`, else create a new
group; then update-or-insert the tool keyed by its index. -/
def addOrUpdateTool (parts : List Part) (toolType : Option String)
    (d : ToolCallDelta) : List Part :=
  mutateLast
    (fun p =>
      match p with
      | .tool_group tt ts =>
        if tt = toolType then some (.tool_group tt (updateToolList ts d)) else none
      | _ => none)
    (.tool_group toolType (updateToolList [] d)) parts

/-- Inner scan of `PartsBuilder.setToolResult` over one group's tools:
set the result of the first tool whose `id` strictly equals `toolId`. -/
def setToolResultInTools (ts : List Tool) (toolId : Option String) (r : String) :
    List Tool × Bool :=
  match ts with
  | [] => ([], false)
  | t :: rest =>
    if t.id = toolId then ({ t with result := some r } :: rest, true)
    else
      let (rest', found) := setToolResultInTools rest toolId r
      (t :: rest', found)

/-- `PartsBuilder.setToolResult(toolId, result)`: scan ALL parts front to
back; in the first tool group containing a tool whose `id === toolId`, set
that tool's result and return `true`; else return `false`. -/
def setToolResult (parts : List Part) (toolId : Option String) (r : String) :
    List Part × Bool :=
  match parts with
  | [] => ([], false)
  | .tool_group tt ts :: rest =>
    let (ts', found) := setToolResultInTools ts toolId r
    if found then (.tool_group tt ts' :: rest, true)
    else
      let (rest', f2) := setToolResult rest toolId r
      (.tool_group tt ts :: rest', f2)
  | p :: rest =>
    let (rest', f2) := setToolResult rest toolId r
    (p :: rest', f2)

/-- `PartsBuilder.getAllTools()`: tools of all tool groups, flattened in part
order, each group's list in its stored order. -/
def getAllTools (parts : List Part) : List Tool :=
  parts.foldr
    (fun p acc =>
      match p with
      | .tool_group _ ts => ts ++ acc
      | _ => acc) []

/-- `PartsBuilder.hasContentPart()`. -/
def hasContentPart (parts : List Part) : Bool :=
  parts.any fun p => match p with | .content _ => true | _ => false

/-- `PartsBuilder.hasImagePart()`. -/
def hasImagePart (parts : List Part) : Bool :=
  parts.any fun p => match p with | .image _ => true | _ => false

/-- `PartsBuilder.ensureContentPartFirst(content)`: when an image part exists,
no content part exists and the flat content string is truthy, unshift a
content part at the front. -/
def ensureContentPartFirst (parts : List Part) (content : String) : List Part :=
  if hasImagePart parts ∧ ¬ hasContentPart parts = true ∧ content ≠ "" then
    Part.content content :: parts
  else parts

end PartsBuilder

/-- The tools held by a part (`[]` for non-group parts); used to state
properties of the tool-result lookup. -/
def toolsOfPart : Part → List Tool
  | .tool_group _ ts => ts
  | _ => []

/-- The subsequence of first occurrences of a list of indexes, in arrival
order; used to state the creation order of accumulated tools. -/
def firstOccurrences (l : List Nat) : List Nat :=
  l.foldl (fun acc i => if i ∈ acc then acc else acc ++ [i]) []

/-! ## Delta stream reader (handleIncomingMessage, message.js section) -/

/-- Token-usage object from a frame (`parsed.usage`). -/
structure Usage where
  completion_tokens : Option Nat := none
  total_tokens : Option Nat := none
  prompt_tokens : Option Nat := none
  deriving Repr, DecidableEq

/-- Payload of a `tool_result` chunk yielded by the agent loop:
`{ id: toolMsg.tool_call_id, result: toolMsg.content }`. The id is the
accumulated tool call's id and may be null. -/
structure ToolResultChunk where
  id : Option String
  result : String
  deriving Repr, DecidableEq

/-- A chunk yielded by the `handleIncomingMessage` generator and consumed by
the `for await` loop of `sendMessage`. Annotation payloads are modelled as
opaque strings (field `annots`). -/
structure Chunk where
  content : Option String := none
  reasoning : Option String := none
  tool_calls : List ToolCallDelta := []
  usage : Option Usage := none
  annots : Option String := none
  images : List ImageObj := []
  tool_result : Option ToolResultChunk := none
  error : Bool := false
  errorName : Option String := none
  errorMessage : Option String := none
  deriving Repr, DecidableEq

/-- The `delta` (or `message`) object of a choice in a stream frame. -/
structure DeltaMsg where
  content : Option String := none
  reasoning : Option String := none
  tool_calls : Option (List ToolCallDelta) := none
  images : Option (List ImageObj) := none
  annots : Option String := none
  deriving Repr, DecidableEq

/-- The `error` object a frame may carry. -/
structure ApiErr where
  type_ : Option String := none
  message : Option String := none
  deriving Repr, DecidableEq

/-- One choice of a stream frame: `{ delta?, message?, finish_reason? }`. -/
structure Choice where
  delta : Option DeltaMsg := none
  message : Option DeltaMsg := none
  finish_reason : Option String := none
  deriving Repr, DecidableEq

/-- A parsed stream frame: `{choices: [...], usage?, annotations?, error?}`. -/
structure Frame where
  choices : List Choice := []
  usage : Option Usage := none
  annots : Option String := none
  error : Option ApiErr := none
  deriving Repr, DecidableEq

/-- A thrown JavaScript error, identified by its `name` and `message`. -/
structure JsErr where
  name : String
  message : String
  deriving Repr, DecidableEq

/-- One entry of the stream-local `toolCallAccumulator` (keyed separately by
index): `{ id, type, function: { name, arguments } }`. -/
structure AccTool where
  id : Option String
  type_ : String
  name : String
  arguments : String
  deriving Repr, DecidableEq

/-- Field-merge of one tool-call delta into an accumulator entry
(lines 686-695 of message.js: id overwritten when truthy, name overwritten
when truthy, arguments appended when truthy; type is never updated here). -/
def AccTool.update (d : ToolCallDelta) (t : AccTool) : AccTool :=
  { t with
    id := if jsTruthy d.id then d.id else t.id
    name := if jsTruthy d.fnName then d.fnName.getD "" else t.name
    arguments :=
      if jsTruthy d.fnArgs then t.arguments ++ d.fnArgs.getD "" else t.arguments }

/-- The fresh accumulator entry for an unseen index:
`{ id: delta.id, type: delta.type || "function", function: {name:"", arguments:""} }`. -/
def AccTool.fresh (d : ToolCallDelta) : AccTool :=
  { id := d.id
    type_ := if jsTruthy d.type_ then d.type_.getD "" else "function"
    name := ""
    arguments := "" }

/-- The accumulator object `toolCallAccumulator`, kept sorted by its numeric
key so that `Object.values` order (ascending integer keys) is the list
order. -/
abbrev AccMap := List (Nat × AccTool)

/-- Lookup `toolCallAccumulator[index]`. -/
def accGet (acc : AccMap) (i : Nat) : Option AccTool :=
  match acc with
  | [] => none
  | (j, t) :: rest => if i = j then some t else accGet rest i

/-- Store `toolCallAccumulator[index] = tool`, keeping keys sorted ascending
(JS objects expose integer-like keys in ascending order). -/
def accPut (acc : AccMap) (i : Nat) (t : AccTool) : AccMap :=
  match acc with
  | [] => [(i, t)]
  | (j, u) :: rest =>
    if i = j then (i, t) :: rest
    else if i < j then (i, t) :: (j, u) :: rest
    else (j, u) :: accPut rest i t

/-- Processing of one `toolCallDelta` of a frame (lines 675-696):
`existing = acc[index] || fresh; merge; acc[index] = existing`. -/
def accStep (acc : AccMap) (d : ToolCallDelta) : AccMap :=
  accPut acc d.index (AccTool.update d ((accGet acc d.index).getD (AccTool.fresh d)))

/-- Reader-local mutable state of one streaming call:
`toolCallAccumulator`, `hadToolCalls`, `finishedReason`. -/
structure ReaderState where
  acc : AccMap := []
  hadToolCalls : Bool := false
  finishedReason : Option String := none
  deriving Repr, DecidableEq

/-- What the body of the `for (const line of lines)` loop does after one
line: go on to the next line, break out of the line loop, or throw. -/
inductive LineOut where
  | next
  | stopBatch
  | threw (e : JsErr)
  deriving Repr, DecidableEq

/-- A complete line made available by one network read, pre-classified the
way the reader's string tests classify it: not a `data: ` line, the
`[DONE]` sentinel, an unparseable payload, or a parsed frame. -/
inductive LineItem where
  | notData
  | doneMark
  | badJson
  | frame (f : Frame)
  deriving Repr, DecidableEq

/-- Processing of one parsed frame (lines 642-793): emit the error chunk and
throw on an embedded error; otherwise accumulate tool calls, record the
finish reason, and yield content / reasoning / tool-call / usage /
annotation / image chunks in that order; finally break out of the line loop
when the recorded finish reason is `"tool_calls"`. -/
def processFrame (st : ReaderState) (f : Frame) :
    List Chunk × ReaderState × LineOut :=
  match f.error with
  | some e =>
    ([{ content := some ("\n\n[ERROR: " ++ e.message.getD "undefined" ++ "]"),
        error := true,
        errorName := some (jsOr e.type_ "APIError"),
        errorMessage := e.message }],
     st, .threw { name := "Error", message := jsOr e.message "API error" })
  | none =>
    match f.choices.head? with
    | none =>
      -- `if (parsed.choices && parsed.choices[0])` fails: nothing happens,
      -- then the trailing finish-reason check runs.
      ([], st,
       if st.finishedReason = some "tool_calls" then .stopBatch else .next)
    | some ch =>
      let delta := ch.delta
      let tcs := delta.bind (·.tool_calls)
      -- 1) accumulate tool_calls (an empty array is truthy in JS)
      let acc := match tcs with
        | some ds => ds.foldl accStep st.acc
        | none => st.acc
      let had := match tcs with
        | some _ => true
        | none => st.hadToolCalls
      -- 2) detect finish_reason (`if (choice.finish_reason)`)
      let fr :=
        if jsTruthy ch.finish_reason then ch.finish_reason else st.finishedReason
      -- 3) yield content
      let contentChunks :=
        match delta.bind (·.content) with
        | some t =>
          if t ≠ "" then [({ content := some t, tool_calls := tcs.getD [] } : Chunk)]
          else []
        | none => []
      -- 4) yield reasoning
      let reasoningChunks :=
        match delta.bind (·.reasoning) with
        | some t =>
          if t ≠ "" then
            [({ reasoning := some t, tool_calls := tcs.getD [] } : Chunk)]
          else []
        | none => []
      -- 5) yield tool calls delta if present
      let toolChunks :=
        match tcs with
        | some ds => [({ tool_calls := ds } : Chunk)]
        | none => []
      -- 6) yield usage if present
      let usageChunks :=
        match f.usage with
        | some u => [({ usage := some u } : Chunk)]
        | none => []
      -- 7) annotations: choice.message?.annotations || choice.delta?.annotations
      --    || parsed.annotations
      let ann :=
        jsOrOpt (ch.message.bind (·.annots))
          (jsOrOpt (delta.bind (·.annots)) f.annots)
      let annChunks := if jsTruthy ann then [({ annots := ann } : Chunk)] else []
      -- images from the delta; the chunk's content falls back to the
      -- message content when the delta carries none
      let imgChunks :=
        match delta.bind (·.images) with
        | some l =>
          if l.length > 0 then
            [({ content :=
                  match delta.bind (·.content) with
                  | some c => some c
                  | none => ch.message.bind (·.content),
                images := l } : Chunk)]
          else []
        | none => []
      (contentChunks ++ reasoningChunks ++ toolChunks ++ usageChunks ++
         annChunks ++ imgChunks,
       { acc := acc, hadToolCalls := had, finishedReason := fr },
       if fr = some "tool_calls" then .stopBatch else .next)

/-- Processing of one line: non-data lines and unparseable payloads are
skipped (`continue`, which also skips the trailing finish-reason check),
the `[DONE]` sentinel breaks out of the line loop, frames are processed. -/
def processLine (st : ReaderState) : LineItem → List Chunk × ReaderState × LineOut
  | .notData => ([], st, .next)
  | .doneMark => ([], st, .stopBatch)
  | .badJson => ([], st, .next)
  | .frame f => processFrame st f

/-- Outcome of one read batch: the line loop ran to its end or broke out, or
a throw escaped it. -/
inductive BatchOut where
  | finished
  | threw (e : JsErr)
  deriving Repr, DecidableEq

/-- The `for (const line of lines)` loop over the complete lines of one
network read. -/
def processBatch (st : ReaderState) :
    List LineItem → List Chunk × ReaderState × BatchOut
  | [] => ([], st, .finished)
  | l :: rest =>
    match processLine st l with
    | (cs, st', .next) =>
      let (cs2, st2, out) := processBatch st' rest
      (cs ++ cs2, st2, out)
    | (cs, st', .stopBatch) => (cs, st', .finished)
    | (cs, st', .threw e) => (cs, st', .threw e)

/-- Outcome of the whole `while (true) { reader.read() ... }` loop. -/
inductive StreamOut where
  | ok
  | threw (e : JsErr)
  deriving Repr, DecidableEq

/-- The outer read loop: every break out of the line loop (including the one
taken on `finish_reason == "tool_calls"`) only ends the current batch; the
loop then awaits the next read and keeps consuming until the stream is
exhausted. Only a throw ends it early. -/
def readBatches (st : ReaderState) :
    List (List LineItem) → List Chunk × ReaderState × StreamOut
  | [] => ([], st, .ok)
  | b :: rest =>
    match processBatch st b with
    | (cs, st', .finished) =>
      let (cs2, st2, out) := readBatches st' rest
      (cs ++ cs2, st2, out)
    | (cs, st', .threw e) => (cs, st', .threw e)

/-! ## Tool execution loop (handleIncomingMessage, lines 480-868)

The network is abstracted by a `script` assigning to each round (each
`fetch` of the `while (true)` loop) its observable outcome; the message
arrays sent per round only influence what the external endpoint answers, so
they are absorbed into the script. Tool execution
(`executeToolCallsLocally`) produces, for every accumulated tool call,
exactly one tool message whose `tool_call_id` is the call's id — on the
success path, the unknown-tool path and the caught-exception path alike —
so the executor is abstracted by the `runTool` function giving that
message's content string. -/

/-- Observable outcome of one round's HTTP call and stream:
a streamed body (list of read batches), an abort (`AbortError` raised at the
fetch or during a read, after the given batches were already consumed), or a
non-2xx response (`response.ok` false) with the status and the parsed
`errorData.error?.message || "Unknown error"`. -/
inductive RoundResp where
  | stream (batches : List (List LineItem))
  | aborted (before : List (List LineItem))
  | httpError (status : Nat) (message : String)

/-- Counters of one turn: the yielded chunks, the number of completion
calls issued, and the number of rounds of local tool execution performed. -/
structure CoreTrace where
  chunks : List Chunk
  fetches : Nat
  toolExecRounds : Nat
  deriving Repr, DecidableEq

/-- How the `while (true)` loop of the turn ended before the surrounding
`catch`: a normal answer, the max-iteration fail-safe, or a throw. -/
inductive CoreEnd where
  | finishedNormal
  | maxIterationsHit
  | threw (e : JsErr)
  deriving Repr, DecidableEq

/-- `settings.tool_max_iterations ?? 4`. -/
def maxToolIterationsSetting (s : Option Nat) : Nat := s.getD 4

/-- The fetch and stream-read of one round (lines 588-798): either the
fetch/read raises `AbortError`, or the non-2xx response raises
`Error("API request failed with status ...")`, or the body is stream-read;
an error thrown while reading (error frame) is reified in the third
component. -/
def roundRead (resp : RoundResp) : List Chunk × ReaderState × Option JsErr :=
  match resp with
  | .aborted before =>
    let (cs, st, out) := readBatches {} before
    match out with
    | .threw e => (cs, st, some e)
    | .ok =>
      (cs, st,
       some { name := "AbortError", message := "The operation was aborted" })
  | .httpError status msg =>
    ([], {},
     some { name := "Error",
            message := "API request failed with status " ++ toString status
              ++ ": " ++ msg })
  | .stream batches =>
    let (cs, st, out) := readBatches {} batches
    match out with
    | .threw e => (cs, st, some e)
    | .ok => (cs, st, none)

/-- The agent loop body, lines 480-848. The source counts rounds upward in
`iteration` against `maxToolIterations`; here the same counter is carried as
the countdown `remaining = maxToolIterations - iteration`, so the source's
break condition `++iteration >= maxToolIterations` is `remaining ≤ 1`
(the `0`/`1` arms below). Each round: fetch (`script callIdx`), stream-read
the body (`roundRead`), then either propagate a throw, break on a normal
answer (`!hadToolCalls || !modelSupportsTools`), break on the iteration
bound, or execute the accumulated tool calls locally
(`executeToolCallsLocally` produces one tool message per call, with
`tool_call_id` the call's id and content given by the abstracted executor
`runTool`), yield their `tool_result` chunks, and loop. -/
def agentLoopCore (supportsTools : Bool) (runTool : AccTool → String)
    (script : Nat → RoundResp) :
    (remaining : Nat) → (callIdx : Nat) → CoreTrace × CoreEnd
  | 0, callIdx =>
    let (cs, st, err) := roundRead (script callIdx)
    match err with
    | some e => ({ chunks := cs, fetches := 1, toolExecRounds := 0 }, .threw e)
    | none =>
      if ¬ st.hadToolCalls ∨ ¬ supportsTools then
        ({ chunks := cs, fetches := 1, toolExecRounds := 0 }, .finishedNormal)
      else
        ({ chunks := cs, fetches := 1, toolExecRounds := 0 },
         .maxIterationsHit)
  | 1, callIdx =>
    let (cs, st, err) := roundRead (script callIdx)
    match err with
    | some e => ({ chunks := cs, fetches := 1, toolExecRounds := 0 }, .threw e)
    | none =>
      if ¬ st.hadToolCalls ∨ ¬ supportsTools then
        ({ chunks := cs, fetches := 1, toolExecRounds := 0 }, .finishedNormal)
      else
        ({ chunks := cs, fetches := 1, toolExecRounds := 0 },
         .maxIterationsHit)
  | r + 2, callIdx =>
    let (cs, st, err) := roundRead (script callIdx)
    match err with
    | some e => ({ chunks := cs, fetches := 1, toolExecRounds := 0 }, .threw e)
    | none =>
      if ¬ st.hadToolCalls ∨ ¬ supportsTools then
        ({ chunks := cs, fetches := 1, toolExecRounds := 0 }, .finishedNormal)
      else
        let completed := st.acc.map (·.2)
        let trChunks := completed.map fun tc =>
          ({ tool_result := some ⟨tc.id, runTool tc⟩ } : Chunk)
        let (t, e) :=
          agentLoopCore supportsTools runTool script (r + 1) (callIdx + 1)
        ({ chunks := cs ++ trChunks ++ t.chunks,
           fetches := 1 + t.fetches,
           toolExecRounds := 1 + t.toolExecRounds }, e)

/-- How the turn generator terminated, after the surrounding
`try/catch` (lines 849-867). Every branch of the `catch` yields a final
chunk and returns normally; the generator never rethrows. -/
inductive TurnEnd where
  | completed
  | canceled
  | erroredOut
  deriving Repr, DecidableEq

/-- The whole `handleIncomingMessage` generator: run the agent loop inside
`try`; on an `AbortError` yield the `"\n\n[STREAM CANCELED]"` terminal
content chunk and return, on any other throw yield the critical-error chunk
and return. -/
def handleIncomingMessage (supportsTools : Bool) (runTool : AccTool → String)
    (script : Nat → RoundResp) (maxToolIterations : Nat) :
    CoreTrace × TurnEnd :=
  let (t, e) := agentLoopCore supportsTools runTool script maxToolIterations 0
  match e with
  | .finishedNormal => (t, .completed)
  | .maxIterationsHit => (t, .completed)
  | .threw err =>
    if err.name = "AbortError" then
      ({ t with
         chunks := t.chunks ++ [{ content := some "\n\n[STREAM CANCELED]" }] },
       .canceled)
    else
      ({ t with
         chunks := t.chunks ++
           [{ content := some ("\n\n[CRITICAL ERROR: Failed to patch request."
                ++ err.message ++ "]"),
              error := true,
              errorName := some err.name,
              errorMessage := some err.message }] },
       .erroredOut)

/-! ## sendMessage (useMessagesManager) -/

/-- Application of one received chunk to the parts builder, following the
`for await` body of `sendMessage` (lines 285-339): content, then images,
then reasoning, then tool-call deltas (grouped under `tool.type ||
'function'`), then a tool result. -/
def applyChunk (parts : List Part) (c : Chunk) : List Part :=
  let parts :=
    match c.content with
    | some t => if t ≠ "" then PartsBuilder.appendContent parts t else parts
    | none => parts
  let parts :=
    if c.images.length > 0 then c.images.foldl PartsBuilder.processImage parts
    else parts
  let parts :=
    match c.reasoning with
    | some t =>
      if t ≠ "" ∧ jsTrim t ≠ "None" then PartsBuilder.appendReasoning parts t
      else parts
    | none => parts
  let parts :=
    if c.tool_calls.length > 0 then
      c.tool_calls.foldl
        (fun ps d =>
          PartsBuilder.addOrUpdateTool ps (some (jsOr d.type_ "function")) d)
        parts
    else parts
  match c.tool_result with
  | some tr => (PartsBuilder.setToolResult parts tr.id tr.result).1
  | none => parts

/-- The parts built from a chunk sequence, starting from the fresh builder
created at the top of `sendMessage`. -/
def applyChunks (cs : List Chunk) : List Part :=
  cs.foldl applyChunk []

/-- Accumulation of the legacy flat `content` string over one chunk
(`if (chunk.content) assistantMsg.content = (assistantMsg.content || '') + chunk.content`). -/
def chunkContentFold (acc : String) (c : Chunk) : String :=
  match c.content with
  | some t => if t ≠ "" then acc ++ t else acc
  | none => acc

/-- The externally visible outcome fields of the assistant message. -/
structure MsgOutcome where
  content : String
  complete : Bool
  deriving Repr, DecidableEq

/-- What `sendMessage` leaves on the assistant message after the stream:
the flat content is the fold of all content chunks; the `finally` block
unconditionally marks the message complete. -/
def sendMessageOutcome (t : CoreTrace) : MsgOutcome :=
  { content := t.chunks.foldl chunkContentFold ""
    complete := true }

/-- A stored conversation message as seen by the history filter of
`sendMessage` (only the fields that filter reads). -/
structure StoredMsg where
  role : String
  content : String
  complete : Bool
  deriving Repr, DecidableEq

/-- The history selection of `sendMessage` (lines 174-266): after the early
return (`!message.trim() && attachments.length === 0`), the user message
with content `messageToStore = originalMessage ?? message` is appended
(unless its own guard fires), the fresh incomplete assistant message is
appended, and the history handed to `handleIncomingMessage` is
`messages.filter(msg => msg.complete && msg.content !== messageToStore)`. -/
def sendMessageHistory (existing : List StoredMsg) (message : String)
    (originalMessage : Option String) (attachCount : Nat) :
    Option (List StoredMsg) :=
  if jsTrim message = "" ∧ attachCount = 0 then none
  else
    let messageToStore := originalMessage.getD message
    let userAdded : List StoredMsg :=
      if jsTrim messageToStore = "" ∧ attachCount = 0 then []
      else [{ role := "user", content := messageToStore, complete := true }]
    let assistantMsg : StoredMsg :=
      { role := "assistant", content := "", complete := false }
    let msgs := existing ++ userAdded ++ [assistantMsg]
    some (msgs.filter fun m => m.complete ∧ m.content ≠ messageToStore)

/-! ## Object-identity model of the builder (`toReactiveArray`)

JavaScript object identity is made explicit by tagging every allocated
object (part objects, the `tools`/`images` arrays, tool objects, image
objects) with an allocation address, threaded as a counter. Mutating an
object in place keeps its address; `{...}` / `[...]` literals allocate. -/

/-- A tool object with its identity. -/
structure RTool where
  addr : Nat
  index : Nat
  id : Option String
  type_ : String
  name : String
  arguments : String
  result : Option String := none
  deriving Repr, DecidableEq

/-- An image entry object with its identity. -/
structure RImage where
  addr : Nat
  url : String
  revised_prompt : Option String
  deriving Repr, DecidableEq

/-- A part object with its identity; container parts also carry the address
of their `tools` / `images` array. -/
inductive RPart where
  | content (addr : Nat) (text : String)
  | reasoning (addr : Nat) (text : String)
  | tool_group (addr arrAddr : Nat) (toolType : Option String)
      (tools : List RTool)
  | image (addr arrAddr : Nat) (images : List RImage)
  deriving Repr, DecidableEq

/-- Addresses of a part object itself and of its array, if any. -/
def RPart.containerAddrs : RPart → List Nat
  | .content a _ => [a]
  | .reasoning a _ => [a]
  | .tool_group a b _ _ => [a, b]
  | .image a b _ => [a, b]

/-- Addresses of the tool objects held by a part. -/
def RPart.toolAddrs : RPart → List Nat
  | .tool_group _ _ _ ts => ts.map (·.addr)
  | _ => []

/-- Addresses of the image objects held by a part. -/
def RPart.imageAddrs : RPart → List Nat
  | .image _ _ ims => ims.map (·.addr)
  | _ => []

/-- Every address reachable from a parts array. -/
def rAllAddrs (parts : List RPart) : List Nat :=
  parts.foldr (fun p acc => p.containerAddrs ++ p.toolAddrs ++ p.imageAddrs ++ acc) []

/-- Well-formedness of a tagged builder state: all reachable addresses were
allocated below the counter. -/
def RWF (parts : List RPart) (n : Nat) : Prop :=
  ∀ a ∈ rAllAddrs parts, a < n

/-- The copy `toReactiveArray` makes of one part:
`{...part}` (and `[...part.tools]` / `[...part.images]`) allocate a new part
object (and a new array), while the elements of the copied arrays — the
tool and image objects themselves — are passed through unchanged. -/
def rCopyPart (n : Nat) : RPart → RPart × Nat
  | .content _ t => (.content n t, n + 1)
  | .reasoning _ t => (.reasoning n t, n + 1)
  | .tool_group _ _ tt ts => (.tool_group n (n + 1) tt ts, n + 2)
  | .image _ _ ims => (.image n (n + 1) ims, n + 2)

/-- `PartsBuilder.toReactiveArray()`: `this.parts.map(part => ...)` with the
per-part copy above; the builder's own parts array is not modified (the
function only reads it and returns the fresh list). -/
def toReactiveArray : List RPart → Nat → List RPart × Nat
  | [], n => ([], n)
  | p :: rest, n =>
    let (p', n') := rCopyPart n p
    let (rest', n'') := toReactiveArray rest n'
    (p' :: rest', n'')

/-- Identity-tagged version of the fresh tool entry of `addOrUpdateTool`
(the object literal allocates one address). -/
def rNewTool (n : Nat) (d : ToolCallDelta) : RTool × Nat :=
  ({ addr := n
     index := d.index
     id := orNull d.id
     type_ := if jsTruthy d.type_ then d.type_.getD "" else "function"
     name := if jsTruthy d.fnName then d.fnName.getD "" else ""
     arguments := if jsTruthy d.fnArgs then d.fnArgs.getD "" else "" }, n + 1)

/-- Identity-tagged in-place update of an existing tool: same address. -/
def rUpdateTool (d : ToolCallDelta) (t : RTool) : RTool :=
  { t with
    name := if jsTruthy d.fnName then d.fnName.getD "" else t.name
    arguments :=
      if jsTruthy d.fnArgs then t.arguments ++ d.fnArgs.getD "" else t.arguments
    id := if jsTruthy d.id then d.id else t.id
    type_ := if jsTruthy d.type_ then d.type_.getD "" else t.type_ }

/-- Identity-tagged find-or-push on a group's tools. -/
def rUpdateToolList (ts : List RTool) (d : ToolCallDelta) (n : Nat) :
    List RTool × Nat :=
  match ts with
  | [] =>
    let (t, n') := rNewTool n d
    ([t], n')
  | t :: rest =>
    if t.index = d.index then (rUpdateTool d t :: rest, n)
    else
      let (rest', n') := rUpdateToolList rest d n
      (t :: rest', n')

/-- Identity-tagged `addOrUpdateTool`: reusing the last group mutates it in
place (addresses unchanged); otherwise a new group object and a new empty
tools array are allocated, then the fresh tool is pushed into it. -/
def rAddOrUpdateTool (parts : List RPart) (toolType : Option String)
    (d : ToolCallDelta) (n : Nat) : List RPart × Nat :=
  match parts with
  | [] =>
    let (ts, n') := rUpdateToolList [] d (n + 2)
    ([.tool_group n (n + 1) toolType ts], n')
  | [RPart.tool_group a b tt ts] =>
    if tt = toolType then
      let (ts', n') := rUpdateToolList ts d n
      ([.tool_group a b tt ts'], n')
    else
      let (fresh, n') := rUpdateToolList [] d (n + 2)
      ([.tool_group a b tt ts, .tool_group n (n + 1) toolType fresh], n')
  | [p] =>
    let (fresh, n') := rUpdateToolList [] d (n + 2)
    ([p, .tool_group n (n + 1) toolType fresh], n')
  | p :: q :: rest =>
    let (rest', n') := rAddOrUpdateTool (q :: rest) toolType d n
    (p :: rest', n')

/-! ## Lemmas: the adjacency invariant (C1) -/

theorem sep_nil : Sep [] := by simp [Sep]

theorem sep_singleton (p : Part) : Sep [p] := by simp [Sep]

theorem sep_cons_cons {p q : Part} {l : List Part} :
    Sep (p :: q :: l) ↔
      PartKind.mergeableWith p.kind q.kind = false ∧ Sep (q :: l) := by
  simp [Sep, List.chain'_cons]

theorem mutateLast_head (f : Part → Option Part) (fresh : Part)
    (hf : ∀ p p', f p = some p' → p'.kind = p.kind) (q : Part)
    (rest : List Part) :
    ∃ h t, PartsBuilder.mutateLast f fresh (q :: rest) = h :: t ∧
      h.kind = q.kind := by
  cases rest with
  | nil =>
    cases hfq : f q with
    | none => exact ⟨q, [fresh], by simp [PartsBuilder.mutateLast, hfq], rfl⟩
    | some q' => exact ⟨q', [], by simp [PartsBuilder.mutateLast, hfq], hf q q' hfq⟩
  | cons r rs => exact ⟨q, _, rfl, rfl⟩

theorem sep_mutateLast {f : Part → Option Part} {fresh : Part}
    (hf : ∀ p p', f p = some p' → p'.kind = p.kind)
    (hfresh : ∀ p, f p = none →
      PartKind.mergeableWith p.kind fresh.kind = false) :
    ∀ parts, Sep parts → Sep (PartsBuilder.mutateLast f fresh parts) := by
  intro parts
  induction parts with
  | nil => intro _; exact sep_singleton fresh
  | cons p rest ih =>
    intro hsep
    cases rest with
    | nil =>
      simp only [PartsBuilder.mutateLast]
      cases hfp : f p with
      | some p' => exact sep_singleton p'
      | none =>
        exact sep_cons_cons.mpr ⟨hfresh p hfp, sep_singleton fresh⟩
    | cons q rs =>
      obtain ⟨hpq, htail⟩ := sep_cons_cons.mp hsep
      obtain ⟨h, t, heq, hk⟩ := mutateLast_head f fresh hf q rs
      show Sep (p :: PartsBuilder.mutateLast f fresh (q :: rs))
      rw [heq]
      refine sep_cons_cons.mpr ⟨?_, ?_⟩
      · rw [hk]; exact hpq
      · rw [← heq]; exact ih htail

theorem sep_appendContent (t : String) {parts : List Part} (h : Sep parts) :
    Sep (PartsBuilder.appendContent parts t) := by
  unfold PartsBuilder.appendContent
  split
  · exact h
  · refine sep_mutateLast ?_ ?_ parts h
    · intro p p' hp
      cases p with
      | content c => simp at hp; subst hp; rfl
      | reasoning c => simp at hp
      | tool_group tt ts => simp at hp
      | image ims => simp at hp
    · intro p hp
      cases p with
      | content c => simp at hp
      | reasoning c => rfl
      | tool_group tt ts => rfl
      | image ims => rfl

theorem sep_appendReasoning (t : String) {parts : List Part} (h : Sep parts) :
    Sep (PartsBuilder.appendReasoning parts t) := by
  unfold PartsBuilder.appendReasoning
  split
  · exact h
  · refine sep_mutateLast ?_ ?_ parts h
    · intro p p' hp
      cases p with
      | reasoning c => simp at hp; subst hp; rfl
      | content c => simp at hp
      | tool_group tt ts => simp at hp
      | image ims => simp at hp
    · intro p hp
      cases p with
      | reasoning c => simp at hp
      | content c => rfl
      | tool_group tt ts => rfl
      | image ims => rfl

theorem sep_addImage (u : String) (rp : Option String) {parts : List Part}
    (h : Sep parts) : Sep (PartsBuilder.addImage parts u rp) := by
  unfold PartsBuilder.addImage
  split
  · exact h
  · refine sep_mutateLast ?_ ?_ parts h
    · intro p p' hp
      cases p with
      | image ims => simp at hp; subst hp; rfl
      | content c => simp at hp
      | reasoning c => simp at hp
      | tool_group tt ts => simp at hp
    · intro p hp
      cases p with
      | image ims => simp at hp
      | content c => rfl
      | reasoning c => rfl
      | tool_group tt ts => rfl

theorem sep_processImage (img : ImageObj) {parts : List Part} (h : Sep parts) :
    Sep (PartsBuilder.processImage parts img) := by
  simp only [PartsBuilder.processImage]
  split
  · exact sep_addImage _ _ h
  · split
    · exact sep_addImage _ _ h
    · exact h

theorem sep_addOrUpdateTool (tt : Option String) (d : ToolCallDelta)
    {parts : List Part} (h : Sep parts) :
    Sep (PartsBuilder.addOrUpdateTool parts tt d) := by
  refine sep_mutateLast ?_ ?_ parts h
  · intro p p' hp
    cases p with
    | tool_group tt' ts =>
      by_cases htt : tt' = tt
      · subst htt; simp at hp; subst hp; rfl
      · simp [htt] at hp
    | content c => simp at hp
    | reasoning c => simp at hp
    | image ims => simp at hp
  · intro p hp
    cases p with
    | tool_group tt' ts =>
      by_cases htt : tt' = tt
      · subst htt; simp at hp
      · show PartKind.mergeableWith (.tool_group tt') (.tool_group tt) = false
        simp [PartKind.mergeableWith, htt]
    | content c => rfl
    | reasoning c => rfl
    | image ims => rfl

theorem kinds_setToolResult (toolId : Option String) (r : String) :
    ∀ parts : List Part,
      ((PartsBuilder.setToolResult parts toolId r).1).map Part.kind =
        parts.map Part.kind := by
  intro parts
  induction parts with
  | nil => rfl
  | cons p rest ih =>
    cases p with
    | tool_group tt ts =>
      simp only [PartsBuilder.setToolResult]
      cases h : PartsBuilder.setToolResultInTools ts toolId r with
      | mk ts' found =>
        cases found <;> simp_all [Part.kind]
    | content c => simp_all [PartsBuilder.setToolResult, Part.kind]
    | reasoning c => simp_all [PartsBuilder.setToolResult, Part.kind]
    | image ims => simp_all [PartsBuilder.setToolResult, Part.kind]

theorem sep_setToolResult (toolId : Option String) (r : String)
    {parts : List Part} (h : Sep parts) :
    Sep ((PartsBuilder.setToolResult parts toolId r).1) := by
  unfold Sep at *
  rw [kinds_setToolResult]
  exact h

theorem sep_foldl_processImage (imgs : List ImageObj) :
    ∀ {parts : List Part}, Sep parts →
      Sep (imgs.foldl PartsBuilder.processImage parts) := by
  induction imgs with
  | nil => intro _ h; exact h
  | cons i is ih => intro parts h; exact ih (sep_processImage i h)

theorem sep_foldl_addTool (ds : List ToolCallDelta) :
    ∀ {parts : List Part}, Sep parts →
      Sep (ds.foldl
        (fun ps d =>
          PartsBuilder.addOrUpdateTool ps (some (jsOr d.type_ "function")) d)
        parts) := by
  induction ds with
  | nil => intro _ h; exact h
  | cons d ds ih => intro parts h; exact ih (sep_addOrUpdateTool _ d h)

theorem sep_contentStep (o : Option String) {ps : List Part} (h : Sep ps) :
    Sep (match o with
      | some t => if t ≠ "" then PartsBuilder.appendContent ps t else ps
      | none => ps) := by
  cases o with
  | some t =>
    show Sep (if t ≠ "" then PartsBuilder.appendContent ps t else ps)
    split
    · exact sep_appendContent _ h
    · exact h
  | none => exact h

theorem sep_imagesStep (imgs : List ImageObj) {ps : List Part} (h : Sep ps) :
    Sep (if imgs.length > 0 then imgs.foldl PartsBuilder.processImage ps
      else ps) := by
  split
  · exact sep_foldl_processImage _ h
  · exact h

theorem sep_reasoningStep (o : Option String) {ps : List Part} (h : Sep ps) :
    Sep (match o with
      | some t =>
        if t ≠ "" ∧ jsTrim t ≠ "None" then PartsBuilder.appendReasoning ps t
        else ps
      | none => ps) := by
  cases o with
  | some t =>
    show Sep (if t ≠ "" ∧ jsTrim t ≠ "None" then
      PartsBuilder.appendReasoning ps t else ps)
    split
    · exact sep_appendReasoning _ h
    · exact h
  | none => exact h

theorem sep_toolCallsStep (ds : List ToolCallDelta) {ps : List Part}
    (h : Sep ps) :
    Sep (if ds.length > 0 then
      ds.foldl
        (fun ps d =>
          PartsBuilder.addOrUpdateTool ps (some (jsOr d.type_ "function")) d) ps
      else ps) := by
  split
  · exact sep_foldl_addTool _ h
  · exact h

theorem sep_toolResultStep (o : Option ToolResultChunk) {ps : List Part}
    (h : Sep ps) :
    Sep (match o with
      | some tr => (PartsBuilder.setToolResult ps tr.id tr.result).1
      | none => ps) := by
  cases o with
  | some tr => exact sep_setToolResult tr.id tr.result h
  | none => exact h

theorem sep_applyChunk (c : Chunk) {parts : List Part} (h : Sep parts) :
    Sep (applyChunk parts c) := by
  unfold applyChunk
  exact sep_toolResultStep c.tool_result
    (sep_toolCallsStep c.tool_calls
      (sep_reasoningStep c.reasoning
        (sep_imagesStep c.images (sep_contentStep c.content h))))

theorem sep_applyChunks (cs : List Chunk) : Sep (applyChunks cs) := by
  unfold applyChunks
  have : ∀ parts, Sep parts → Sep (cs.foldl applyChunk parts) := by
    induction cs with
    | nil => intro parts h; exact h
    | cons c cs ih => intro parts h; exact ih _ (sep_applyChunk c h)
  exact this [] sep_nil

theorem sep_ensureContentPartFirst (flat : String) {parts : List Part}
    (h : Sep parts) : Sep (PartsBuilder.ensureContentPartFirst parts flat) := by
  unfold PartsBuilder.ensureContentPartFirst
  split
  · next hc =>
    obtain ⟨himg, hnoc, hflat⟩ := hc
    cases parts with
    | nil => exact sep_singleton _
    | cons p rest =>
      refine sep_cons_cons.mpr ⟨?_, h⟩
      cases p with
      | content c =>
        exfalso
        simp [PartsBuilder.hasContentPart] at hnoc
      | reasoning c => simp [Part.kind, PartKind.mergeableWith]
      | tool_group tt ts => simp [Part.kind, PartKind.mergeableWith]
      | image ims => simp [Part.kind, PartKind.mergeableWith]
  · exact h

/-- C1: for every sequence of parsed chunks, after each chunk is applied to
the Parts Builder (i.e. after every prefix of the chunk sequence) the parts
sequence never contains two adjacent content parts, two adjacent image parts,
or two adjacent tool_group parts with the same toolKind; the same holds after
the end-of-turn `ensureContentPartFirst` post-processing, for any flat
content string. -/
theorem C1_no_adjacent_mergeable_parts (cs : List Chunk) (k : Nat)
    (flat : String) :
    Sep (applyChunks (cs.take k)) ∧
    Sep (PartsBuilder.ensureContentPartFirst (applyChunks (cs.take k)) flat) :=
  ⟨sep_applyChunks _, sep_ensureContentPartFirst flat (sep_applyChunks _)⟩

/-! ## Lemmas and claim theorems: reasoning merge (C7) -/

theorem mutateLast_snoc (f : Part → Option Part) (fresh : Part) :
    ∀ (ps : List Part) (p : Part),
      PartsBuilder.mutateLast f fresh (ps ++ [p]) =
        ps ++ (match f p with | some p' => [p'] | none => [p, fresh]) := by
  intro ps
  induction ps with
  | nil => intro p; rfl
  | cons q qs ih =>
    intro p
    cases qs with
    | nil => rfl
    | cons r rs =>
      have hstep : PartsBuilder.mutateLast f fresh (q :: ((r :: rs) ++ [p])) =
          q :: PartsBuilder.mutateLast f fresh ((r :: rs) ++ [p]) := rfl
      calc PartsBuilder.mutateLast f fresh ((q :: r :: rs) ++ [p])
          = q :: PartsBuilder.mutateLast f fresh ((r :: rs) ++ [p]) := hstep
        _ = q :: ((r :: rs) ++
              (match f p with | some p' => [p'] | none => [p, fresh])) := by
            rw [ih p]
        _ = (q :: r :: rs) ++
              (match f p with | some p' => [p'] | none => [p, fresh]) := rfl

/-- C7: a reasoning fragment arriving when the accumulated reasoning text is
entirely whitespace replaces it instead of appending; the literal fragment
`"None"` is ignored; and the fragment sequence `["", "  ", "hello"]` yields
the single reasoning part `"hello"`. -/
theorem C7_reasoning_whitespace_replace (ps : List Part) (c t : String)
    (hc : jsTrim c = "") (ht : jsTrim t ≠ "") (hn : jsTrim t ≠ "None") :
    (PartsBuilder.appendReasoning (ps ++ [.reasoning c]) t =
        ps ++ [.reasoning t]) ∧
    (∀ qs : List Part, PartsBuilder.appendReasoning qs "None" = qs) ∧
    (List.foldl PartsBuilder.appendReasoning [] ["", "  ", "hello"] =
        [.reasoning "hello"]) := by
  refine ⟨?_, ?_, by decide⟩
  · have htne : t ≠ "" := by
      intro h0
      subst h0
      exact ht (by decide)
    unfold PartsBuilder.appendReasoning
    rw [if_neg (by push_neg; exact ⟨htne, hn⟩)]
    rw [mutateLast_snoc]
    show ps ++ [Part.reasoning (PartsBuilder.reasoningMerge c t)] = _
    unfold PartsBuilder.reasoningMerge
    rw [if_pos ⟨hc, ht⟩]
  · intro qs
    unfold PartsBuilder.appendReasoning
    rw [if_pos (Or.inr (by decide))]

/-- Witness for C7 at `ps = []`, `c = "  "`, `t = "hello"`. -/
theorem C7_witness :
    PartsBuilder.appendReasoning ([] ++ [Part.reasoning "  "]) "hello" =
      [] ++ [Part.reasoning "hello"] :=
  (C7_reasoning_whitespace_replace [] "  " "hello" (by decide) (by decide)
    (by decide)).1

/-! ## Lemmas and claim theorems: tool results across history (C8) -/

theorem setToolResultInTools_not_found (tid : Option String) (r : String) :
    ∀ ts : List Tool, (∀ t ∈ ts, t.id ≠ tid) →
      PartsBuilder.setToolResultInTools ts tid r = (ts, false) := by
  intro ts
  induction ts with
  | nil => intro _; rfl
  | cons t rest ih =>
    intro h
    unfold PartsBuilder.setToolResultInTools
    rw [if_neg (h t (by simp))]
    rw [ih fun u hu => h u (by simp [hu])]

theorem setToolResultInTools_found (tid : Option String) (r : String) :
    ∀ (ts1 : List Tool) (t : Tool) (ts2 : List Tool),
      (∀ u ∈ ts1, u.id ≠ tid) → t.id = tid →
      PartsBuilder.setToolResultInTools (ts1 ++ t :: ts2) tid r =
        (ts1 ++ { t with result := some r } :: ts2, true) := by
  intro ts1
  induction ts1 with
  | nil =>
    intro t ts2 _ ht
    show PartsBuilder.setToolResultInTools (t :: ts2) tid r = _
    unfold PartsBuilder.setToolResultInTools
    rw [if_pos ht]
    simp
  | cons u us ih =>
    intro t ts2 hu ht
    show PartsBuilder.setToolResultInTools (u :: (us ++ t :: ts2)) tid r = _
    unfold PartsBuilder.setToolResultInTools
    rw [if_neg (hu u (by simp))]
    rw [ih t ts2 (fun v hv => hu v (by simp [hv])) ht]
    rfl

theorem exists_first_id_match (tid : Option String) :
    ∀ ts : List Tool, (∃ t ∈ ts, t.id = tid) →
      ∃ ts1 t ts2, ts = ts1 ++ t :: ts2 ∧ (∀ u ∈ ts1, u.id ≠ tid) ∧
        t.id = tid := by
  intro ts
  induction ts with
  | nil => intro h; simp at h
  | cons u us ih =>
    intro h
    by_cases hu : u.id = tid
    · exact ⟨[], u, us, rfl, by simp, hu⟩
    · obtain ⟨t, ht, hid⟩ := h
      rcases List.mem_cons.mp ht with rfl | hmem
      · exact absurd hid hu
      · obtain ⟨ts1, t', ts2, heq, hts1, ht'⟩ := ih ⟨t, hmem, hid⟩
        exact ⟨u :: ts1, t', ts2, by rw [heq]; rfl,
          by
            intro v hv
            rcases List.mem_cons.mp hv with rfl | hv'
            · exact hu
            · exact hts1 v hv',
          ht'⟩

theorem setToolResult_found (tid : Option String) (r : String) :
    ∀ (pre : List Part) (tt : Option String) (ts : List Tool) (suf : List Part),
      (∀ g ∈ pre, ∀ u ∈ toolsOfPart g, u.id ≠ tid) →
      (∃ t ∈ ts, t.id = tid) →
      PartsBuilder.setToolResult (pre ++ Part.tool_group tt ts :: suf) tid r =
        (pre ++
          Part.tool_group tt (PartsBuilder.setToolResultInTools ts tid r).1 ::
            suf,
         true) := by
  intro pre
  induction pre with
  | nil =>
    intro tt ts suf _ hex
    obtain ⟨ts1, t, ts2, heq, hts1, ht⟩ := exists_first_id_match tid ts hex
    subst heq
    show PartsBuilder.setToolResult (Part.tool_group tt (ts1 ++ t :: ts2) :: suf)
        tid r = _
    unfold PartsBuilder.setToolResult
    rw [setToolResultInTools_found tid r ts1 t ts2 hts1 ht]
    simp
  | cons g gs ih =>
    intro tt ts suf hpre hex
    have hg : ∀ u ∈ toolsOfPart g, u.id ≠ tid := hpre g (by simp)
    have hgs : ∀ g' ∈ gs, ∀ u ∈ toolsOfPart g', u.id ≠ tid :=
      fun g' hg' => hpre g' (by simp [hg'])
    cases g with
    | tool_group tg tsg =>
      show PartsBuilder.setToolResult
          (Part.tool_group tg tsg :: (gs ++ Part.tool_group tt ts :: suf)) tid r
          = _
      unfold PartsBuilder.setToolResult
      rw [setToolResultInTools_not_found tid r tsg hg]
      rw [ih tt ts suf hgs hex]
      simp
    | content c =>
      show PartsBuilder.setToolResult
          (Part.content c :: (gs ++ Part.tool_group tt ts :: suf)) tid r = _
      unfold PartsBuilder.setToolResult
      rw [ih tt ts suf hgs hex]
      rfl
    | reasoning c =>
      show PartsBuilder.setToolResult
          (Part.reasoning c :: (gs ++ Part.tool_group tt ts :: suf)) tid r = _
      unfold PartsBuilder.setToolResult
      rw [ih tt ts suf hgs hex]
      rfl
    | image ims =>
      show PartsBuilder.setToolResult
          (Part.image ims :: (gs ++ Part.tool_group tt ts :: suf)) tid r = _
      unfold PartsBuilder.setToolResult
      rw [ih tt ts suf hgs hex]
      rfl

/-- C8: in any builder state containing a tool with the given id in some
tool_group part — not necessarily the last part — applying a tool result with
that id succeeds and sets exactly that (first matching) tool's result; the
lookup spans the full parts history. -/
theorem C8_tool_result_spans_history (pre suf : List Part) (tt : Option String)
    (ts : List Tool) (tid r : String)
    (hpre : ∀ g ∈ pre, ∀ u ∈ toolsOfPart g, u.id ≠ some tid)
    (hex : ∃ t ∈ ts, t.id = some tid) :
    (PartsBuilder.setToolResult (pre ++ Part.tool_group tt ts :: suf)
        (some tid) r).2 = true ∧
    ∃ ts1 t ts2, ts = ts1 ++ t :: ts2 ∧ (∀ u ∈ ts1, u.id ≠ some tid) ∧
      t.id = some tid ∧
      (PartsBuilder.setToolResult (pre ++ Part.tool_group tt ts :: suf)
          (some tid) r).1 =
        pre ++ Part.tool_group tt (ts1 ++ { t with result := some r } :: ts2)
          :: suf := by
  obtain ⟨ts1, t, ts2, heq, hts1, ht⟩ := exists_first_id_match (some tid) ts hex
  have hmain := setToolResult_found (some tid) r pre tt ts suf hpre hex
  constructor
  · rw [hmain]
  · refine ⟨ts1, t, ts2, heq, hts1, ht, ?_⟩
    rw [hmain]
    subst heq
    rw [setToolResultInTools_found (some tid) r ts1 t ts2 hts1 ht]

/-- Witness for C8: the tool group holding `call_1` is followed by a content
part, so it is not the last part, and the result still attaches. -/
theorem C8_witness :
    (PartsBuilder.setToolResult
        ([] ++ Part.tool_group (some "function")
            [{ index := 0, id := some "call_1", type_ := "function",
               name := "search", arguments := "{}", result := none }] ::
          [Part.content "done"]) (some "call_1") "res").2 = true ∧
    ∃ ts1 t ts2,
      ([{ index := 0, id := some "call_1", type_ := "function",
          name := "search", arguments := "{}", result := none }] : List Tool) =
          ts1 ++ t :: ts2 ∧
      (∀ u ∈ ts1, u.id ≠ some "call_1") ∧ t.id = some "call_1" ∧
      (PartsBuilder.setToolResult
          ([] ++ Part.tool_group (some "function")
              [{ index := 0, id := some "call_1", type_ := "function",
                 name := "search", arguments := "{}", result := none }] ::
            [Part.content "done"]) (some "call_1") "res").1 =
        [] ++ Part.tool_group (some "function")
            (ts1 ++ { t with result := some "res" } :: ts2) ::
          [Part.content "done"] :=
  C8_tool_result_spans_history [] [Part.content "done"] (some "function")
    [{ index := 0, id := some "call_1", type_ := "function", name := "search",
       arguments := "{}", result := none }] "call_1" "res" (by simp)
    (by decide)

/-! ## Lemmas and claim theorems: flattened tool list order (C6) -/

theorem updateToolList_indexes (d : ToolCallDelta) :
    ∀ ts : List Tool,
      (PartsBuilder.updateToolList ts d).map (·.index) =
        if d.index ∈ ts.map (·.index) then ts.map (·.index)
        else ts.map (·.index) ++ [d.index] := by
  intro ts
  induction ts with
  | nil => simp [PartsBuilder.updateToolList, PartsBuilder.newTool]
  | cons t rest ih =>
    unfold PartsBuilder.updateToolList
    by_cases h : t.index = d.index
    · rw [if_pos h]
      have : (PartsBuilder.updateTool d t).index = t.index := rfl
      simp [this, h]
    · rw [if_neg h]
      simp only [List.map_cons]
      rw [ih]
      by_cases hm : d.index ∈ rest.map (·.index)
      · rw [if_pos hm, if_pos (by simp [hm])]
      · rw [if_neg hm,
          if_neg (by
            simp only [List.mem_cons]
            push_neg
            exact ⟨fun he => h he.symm, hm⟩)]
        simp

theorem foldl_addOrUpdateTool_group (tt : Option String) :
    ∀ (ds : List ToolCallDelta) (ts : List Tool),
      List.foldl (fun ps d => PartsBuilder.addOrUpdateTool ps tt d)
          [Part.tool_group tt ts] ds =
        [Part.tool_group tt (List.foldl PartsBuilder.updateToolList ts ds)] := by
  intro ds
  induction ds with
  | nil => intro ts; rfl
  | cons d rest ih =>
    intro ts
    have hstep : PartsBuilder.addOrUpdateTool [Part.tool_group tt ts] tt d =
        [Part.tool_group tt (PartsBuilder.updateToolList ts d)] := by
      unfold PartsBuilder.addOrUpdateTool PartsBuilder.mutateLast
      simp
    simp only [List.foldl_cons, hstep, ih]

theorem map_index_foldl_updateToolList :
    ∀ (ds : List ToolCallDelta) (ts : List Tool),
      (List.foldl PartsBuilder.updateToolList ts ds).map (·.index) =
        List.foldl
          (fun acc d => if d.index ∈ acc then acc else acc ++ [d.index])
          (ts.map (·.index)) ds := by
  intro ds
  induction ds with
  | nil => intro ts; rfl
  | cons d rest ih =>
    intro ts
    simp only [List.foldl_cons]
    rw [ih, updateToolList_indexes]

/-- C6 (amended): the flat tool list returned by `getAllTools` lists, for a
group built from a tool-call-delta sequence, the tool indexes in order of
their FIRST APPEARANCE in the delta sequence (creation order), not sorted
ascending. -/
theorem C6_getAllTools_creation_order (tt : Option String)
    (ds : List ToolCallDelta) :
    (PartsBuilder.getAllTools
        (List.foldl (fun ps d => PartsBuilder.addOrUpdateTool ps tt d) [] ds)
      ).map (·.index) =
      firstOccurrences (ds.map (·.index)) := by
  cases ds with
  | nil => rfl
  | cons d rest =>
    have hfirst : PartsBuilder.addOrUpdateTool [] tt d =
        [Part.tool_group tt (PartsBuilder.updateToolList [] d)] := rfl
    simp only [List.foldl_cons, hfirst, foldl_addOrUpdateTool_group]
    have hflat : ∀ ts : List Tool,
        PartsBuilder.getAllTools [Part.tool_group tt ts] = ts := by
      intro ts
      simp [PartsBuilder.getAllTools]
    rw [hflat, map_index_foldl_updateToolList]
    unfold firstOccurrences
    rw [List.foldl_map, List.foldl_cons]
    simp [PartsBuilder.updateToolList, PartsBuilder.newTool]

/-- Counterexample to C6 as stated: deltas arriving with indexes `1` then `0`
produce a flat tool list with indexes `[1, 0]`, which is not ascending. -/
theorem C6_counterexample :
    ((PartsBuilder.getAllTools
        (List.foldl
          (fun ps d => PartsBuilder.addOrUpdateTool ps (some "function") d) []
          [{ index := 1, id := some "b", type_ := none,
             function := some { name := some "beta", arguments := none } },
           { index := 0, id := some "a", type_ := none,
             function := some { name := some "alpha", arguments := none } }])
      ).map (·.index) = [1, 0]) ∧
    ¬ List.Chain' (· ≤ ·) ([1, 0] : List Nat) := by
  constructor
  · decide
  · simp [List.chain'_cons]

/-! ## Lemmas and claim theorems: tool-call field merging (C3) -/

theorem foldl_string_append_shift (l : List String) :
    ∀ acc : String, l.foldl (fun r s => r ++ s) acc =
      acc ++ l.foldl (fun r s => r ++ s) "" := by
  induction l with
  | nil => intro acc; rw [List.foldl_nil, List.foldl_nil, String.append_empty]
  | cons s rest ih =>
    intro acc
    rw [List.foldl_cons, List.foldl_cons, ih (acc ++ s), ih ("" ++ s)]
    rw [String.append_assoc]
    rfl

theorem string_join_cons (s : String) (l : List String) :
    String.join (s :: l) = s ++ String.join l := by
  show (s :: l).foldl (fun r s => r ++ s) "" = _
  rw [List.foldl_cons, foldl_string_append_shift]
  rfl

theorem foldl_fnArgs_join :
    ∀ (ds : List ToolCallDelta) (acc : String),
      ds.foldl
          (fun a d => if jsTruthy d.fnArgs then a ++ d.fnArgs.getD "" else a)
          acc =
        acc ++ String.join (ds.map fun d => d.fnArgs.getD "") := by
  intro ds
  induction ds with
  | nil =>
    intro acc
    rw [List.foldl_nil, List.map_nil]
    exact (String.append_empty acc).symm
  | cons d rest ih =>
    intro acc
    rw [List.foldl_cons, List.map_cons, string_join_cons, ih]
    have hstep : (if jsTruthy d.fnArgs then acc ++ d.fnArgs.getD "" else acc) =
        acc ++ d.fnArgs.getD "" := by
      cases hfa : d.fnArgs with
      | none => simp [jsTruthy, String.append_empty]
      | some s =>
        by_cases hs : s = ""
        · simp [jsTruthy, hs, String.append_empty]
        · simp [jsTruthy, hs]
    rw [hstep, String.append_assoc]

theorem foldl_updateTool_fields :
    ∀ (ds : List ToolCallDelta) (t : Tool),
      List.foldl (fun t d => PartsBuilder.updateTool d t) t ds =
        { index := t.index
          id := ds.foldl (fun a d => if jsTruthy d.id then d.id else a) t.id
          type_ := ds.foldl
            (fun a d => if jsTruthy d.type_ then d.type_.getD "" else a) t.type_
          name := ds.foldl
            (fun a d => if jsTruthy d.fnName then d.fnName.getD "" else a) t.name
          arguments := ds.foldl
            (fun a d => if jsTruthy d.fnArgs then a ++ d.fnArgs.getD "" else a)
            t.arguments
          result := t.result } := by
  intro ds
  induction ds with
  | nil => intro t; rfl
  | cons d rest ih =>
    intro t
    simp only [List.foldl_cons]
    rw [ih]
    rfl

theorem foldl_updateToolList_single (i : Nat) :
    ∀ (ds : List ToolCallDelta) (t : Tool), t.index = i →
      (∀ d ∈ ds, d.index = i) →
      List.foldl PartsBuilder.updateToolList [t] ds =
        [List.foldl (fun t d => PartsBuilder.updateTool d t) t ds] := by
  intro ds
  induction ds with
  | nil => intro t _ _; rfl
  | cons d rest ih =>
    intro t ht hds
    have hd : d.index = i := hds d (by simp)
    have hstep : PartsBuilder.updateToolList [t] d = [PartsBuilder.updateTool d t] := by
      unfold PartsBuilder.updateToolList
      rw [if_pos (by rw [ht, hd])]
    simp only [List.foldl_cons, hstep]
    exact ih (PartsBuilder.updateTool d t) ht
      (fun d' hd' => hds d' (by simp [hd']))

/-- C3 (amended): accumulating a sequence of tool-call deltas that all carry
the same stream-local index into one tool yields: `arguments` equal to the
concatenation of all argument fragments in arrival order; `name` equal to
the last non-empty name fragment (or `""`); `kind`/`type` equal to the last
non-empty type fragment, defaulting to `"function"` when never supplied; and
`id` equal to the LAST non-empty id carried by any delta (null when none is
carried) — each truthy id overwrites the previous one. -/
theorem C3_tool_delta_field_merge (i : Nat) (tt : Option String)
    (d0 : ToolCallDelta) (ds : List ToolCallDelta)
    (h0 : d0.index = i) (hds : ∀ d ∈ ds, d.index = i) :
    List.foldl (fun ps d => PartsBuilder.addOrUpdateTool ps tt d) []
        (d0 :: ds) =
      [Part.tool_group tt
        [{ index := i
           id := (d0 :: ds).foldl
             (fun a d => if jsTruthy d.id then d.id else a) none
           type_ := (d0 :: ds).foldl
             (fun a d => if jsTruthy d.type_ then d.type_.getD "" else a)
             "function"
           name := (d0 :: ds).foldl
             (fun a d => if jsTruthy d.fnName then d.fnName.getD "" else a) ""
           arguments := String.join ((d0 :: ds).map fun d => d.fnArgs.getD "")
           result := none }]] := by
  have hfirst : PartsBuilder.addOrUpdateTool [] tt d0 =
      [Part.tool_group tt [PartsBuilder.newTool d0]] := rfl
  rw [List.foldl_cons, hfirst, foldl_addOrUpdateTool_group,
    foldl_updateToolList_single i ds (PartsBuilder.newTool d0) h0 hds,
    foldl_updateTool_fields]
  have hargs : ds.foldl
      (fun a d => if jsTruthy d.fnArgs then a ++ d.fnArgs.getD "" else a)
      (PartsBuilder.newTool d0).arguments =
      String.join ((d0 :: ds).map fun d => d.fnArgs.getD "") := by
    rw [foldl_fnArgs_join, List.map_cons, string_join_cons]
    have : (PartsBuilder.newTool d0).arguments = d0.fnArgs.getD "" := by
      show (if jsTruthy d0.fnArgs then d0.fnArgs.getD "" else "") = _
      cases hfa : d0.fnArgs with
      | none => rfl
      | some s =>
        by_cases hs : s = "" <;> simp [jsTruthy, hs]
    rw [this]
  rw [hargs]
  have hidx : (PartsBuilder.newTool d0).index = i := h0
  rw [hidx]
  simp only [List.foldl_cons]
  rfl

/-- Counterexample to C3 as stated: two deltas for index 0 carrying ids
`"a"` then `"b"` leave the tool's id equal to `"b"`, the LAST carried id,
not the first. -/
theorem C3_counterexample :
    ((PartsBuilder.getAllTools
        (List.foldl
          (fun ps d => PartsBuilder.addOrUpdateTool ps (some "function") d) []
          [{ index := 0, id := some "a", type_ := none, function := none },
           { index := 0, id := some "b", type_ := none, function := none }])
      ).map (·.id) = [some "b"]) ∧ ("b" : String) ≠ "a" := by
  constructor
  · decide
  · decide

/-- Witness for C3 at a two-delta sequence for index 0. -/
theorem C3_witness :
    List.foldl
        (fun ps d => PartsBuilder.addOrUpdateTool ps (some "function") d) []
        [{ index := 0, id := some "call_9", type_ := none,
           function := some { name := some "search", arguments := some "\x7b\x22q" } },
         { index := 0, id := none, type_ := none,
           function := some { name := none, arguments := some "\x22\x7d" } }] =
      [Part.tool_group (some "function")
        [{ index := 0
           id := ([({ index := 0, id := some "call_9", type_ := none,
                      function := some { name := some "search",
                                         arguments := some "\x7b\x22q" } } :
                    ToolCallDelta),
                  { index := 0, id := none, type_ := none,
                    function := some { name := none,
                                       arguments := some "\x22\x7d" } }] :
                List ToolCallDelta).foldl
             (fun a d => if jsTruthy d.id then d.id else a) none
           type_ := ([({ index := 0, id := some "call_9", type_ := none,
                         function := some { name := some "search",
                                            arguments := some "\x7b\x22q" } } :
                       ToolCallDelta),
                     { index := 0, id := none, type_ := none,
                       function := some { name := none,
                                          arguments := some "\x22\x7d" } }] :
                   List ToolCallDelta).foldl
             (fun a d => if jsTruthy d.type_ then d.type_.getD "" else a)
             "function"
           name := ([({ index := 0, id := some "call_9", type_ := none,
                        function := some { name := some "search",
                                           arguments := some "\x7b\x22q" } } :
                      ToolCallDelta),
                    { index := 0, id := none, type_ := none,
                      function := some { name := none,
                                         arguments := some "\x22\x7d" } }] :
                  List ToolCallDelta).foldl
             (fun a d => if jsTruthy d.fnName then d.fnName.getD "" else a) ""
           arguments := String.join
             (([({ index := 0, id := some "call_9", type_ := none,
                   function := some { name := some "search",
                                      arguments := some "\x7b\x22q" } } :
                 ToolCallDelta),
               { index := 0, id := none, type_ := none,
                 function := some { name := none,
                                    arguments := some "\x22\x7d" } }] :
               List ToolCallDelta).map fun d => d.fnArgs.getD "")
           result := none }]] :=
  C3_tool_delta_field_merge 0 (some "function")
    { index := 0, id := some "call_9", type_ := none,
      function := some { name := some "search", arguments := some "\x7b\x22q" } }
    [{ index := 0, id := none, type_ := none,
       function := some { name := none, arguments := some "\x22\x7d" } }]
    rfl (by decide)

/-! ## Claim theorem: frames after the tool_calls finish frame (C4) -/

/-- C4 evaluated at the failing input: a frame with
`finish_reason == "tool_calls"` arrives in one network read, a content frame
in the NEXT read. The `break` taken on the finish reason only exits the
per-read line loop, so the reader keeps reading, fully processes the first
frame of the next batch and emits a content chunk `"X"` for it — a chunk for
a frame that arrived after the finish frame. -/
theorem C4_reader_emits_after_tool_calls_frame :
    (readBatches {}
        [[LineItem.frame
            { choices :=
                [{ delta := some
                     { tool_calls :=
                         some [{ index := 0, id := some "call_1",
                                 type_ := some "function",
                                 function := some { name := some "search",
                                                    arguments := some "{}" } }] },
                   finish_reason := some "tool_calls" }] }],
         [LineItem.frame
            { choices := [{ delta := some { content := some "X" } }] }]]).1 =
      [{ tool_calls :=
           [{ index := 0, id := some "call_1", type_ := some "function",
              function := some { name := some "search",
                                 arguments := some "{}" } }] },
       { content := some "X" }] := by
  decide

/-! ## Claim theorem: snapshot object identity (C5) -/

/-- C5 evaluated at the failing input: after one tool-call delta the builder
holds one tool group; `toReactiveArray` allocates a fresh part object (addr 3)
and a fresh tools array (addr 4) but the tool OBJECT inside keeps address 2 —
it is the builder's own tool object, shared, not a fresh copy. -/
theorem C5_snapshot_shares_tool_objects :
    (rAddOrUpdateTool [] (some "function")
        { index := 0, id := some "call_1", type_ := none,
          function := some { name := some "search", arguments := some "{}" } }
        0) =
      ([RPart.tool_group 0 1 (some "function")
          [{ addr := 2, index := 0, id := some "call_1", type_ := "function",
             name := "search", arguments := "{}", result := none }]], 3) ∧
    (toReactiveArray
        [RPart.tool_group 0 1 (some "function")
          [{ addr := 2, index := 0, id := some "call_1", type_ := "function",
             name := "search", arguments := "{}", result := none }]] 3) =
      ([RPart.tool_group 3 4 (some "function")
          [{ addr := 2, index := 0, id := some "call_1", type_ := "function",
             name := "search", arguments := "{}", result := none }]], 5) ∧
    ((([RPart.tool_group 3 4 (some "function")
          [{ addr := 2, index := 0, id := some "call_1", type_ := "function",
             name := "search", arguments := "{}", result := none }]] :
        List RPart).foldr (fun p acc => p.toolAddrs ++ acc) []) =
      (([RPart.tool_group 0 1 (some "function")
          [{ addr := 2, index := 0, id := some "call_1", type_ := "function",
             name := "search", arguments := "{}", result := none }]] :
        List RPart).foldr (fun p acc => p.toolAddrs ++ acc) []) ∧
      (([RPart.tool_group 3 4 (some "function")
          [{ addr := 2, index := 0, id := some "call_1", type_ := "function",
             name := "search", arguments := "{}", result := none }]] :
        List RPart).foldr (fun p acc => p.toolAddrs ++ acc) []) ≠ []) := by
  refine ⟨by decide, by decide, by decide, by decide⟩

/-! ## Claim theorem: request history filter (C10) -/

/-- C10: when `sendMessage` proceeds, the history handed to
`handleIncomingMessage` is exactly the pre-existing messages that are
complete AND whose content differs from the stored user message text
(`originalMessage ?? message`), in their original order; any pre-existing
message whose content equals that text is silently omitted, and the result
is an order-preserving sublist of the pre-existing messages. -/
theorem C10_history_filter (existing : List StoredMsg) (message : String)
    (originalMessage : Option String) (attachCount : Nat)
    (h : List StoredMsg)
    (hres : sendMessageHistory existing message originalMessage attachCount =
      some h) :
    h = existing.filter
        (fun m => m.complete ∧ m.content ≠ originalMessage.getD message) ∧
    (∀ m ∈ existing, m.content = originalMessage.getD message → m ∉ h) ∧
    h.Sublist existing := by
  have hmain : h = existing.filter
      (fun m => m.complete ∧ m.content ≠ originalMessage.getD message) := by
    unfold sendMessageHistory at hres
    split at hres
    · exact absurd hres (by simp)
    · simp only [Option.some.injEq] at hres
      subst hres
      split
      · simp [List.filter_append]
      · simp [List.filter_append]
  refine ⟨hmain, ?_, ?_⟩
  · intro m hm hcontent
    rw [hmain]
    simp [List.mem_filter, hcontent]
  · rw [hmain]
    exact List.filter_sublist existing

/-- Witness for C10: a prior identical message, a prior different complete
message and an incomplete message; the filter keeps only the different
complete one. -/
theorem C10_witness :
    ([({ role := "assistant", content := "keep", complete := true } :
        StoredMsg)] =
      ([{ role := "user", content := "dup", complete := true },
        { role := "assistant", content := "keep", complete := true },
        { role := "assistant", content := "part", complete := false }] :
        List StoredMsg).filter
        (fun m => m.complete ∧ m.content ≠ (none : Option String).getD "dup")) ∧
    (∀ m ∈ ([{ role := "user", content := "dup", complete := true },
             { role := "assistant", content := "keep", complete := true },
             { role := "assistant", content := "part", complete := false }] :
        List StoredMsg), m.content = (none : Option String).getD "dup" →
        m ∉ [({ role := "assistant", content := "keep", complete := true } :
          StoredMsg)]) ∧
    List.Sublist
      [({ role := "assistant", content := "keep", complete := true } :
        StoredMsg)]
      [{ role := "user", content := "dup", complete := true },
       { role := "assistant", content := "keep", complete := true },
       { role := "assistant", content := "part", complete := false }] :=
  C10_history_filter
    [{ role := "user", content := "dup", complete := true },
     { role := "assistant", content := "keep", complete := true },
     { role := "assistant", content := "part", complete := false }]
    "dup" none 0
    [{ role := "assistant", content := "keep", complete := true }]
    (by decide)

/-! ## Lemmas and claim theorems: tool loop iteration bound (C2) -/

theorem roundRead_stream_ok (script : Nat → RoundResp) (callIdx : Nat)
    (bs : List (List LineItem)) (cs : List Chunk) (st : ReaderState)
    (hs : script callIdx = .stream bs)
    (hrb : readBatches {} bs = (cs, st, StreamOut.ok)) :
    roundRead (script callIdx) = (cs, st, none) := by
  rw [hs]
  show (match readBatches {} bs with
    | (cs', st', out) =>
      match out with
      | StreamOut.threw e => (cs', st', some e)
      | StreamOut.ok => (cs', st', none)) = (cs, st, none)
  rw [hrb]

theorem agentLoopCore_one_left (runTool : AccTool → String)
    (script : Nat → RoundResp) (callIdx : Nat)
    (cs : List Chunk) (st : ReaderState)
    (hrr : roundRead (script callIdx) = (cs, st, none))
    (htc : st.hadToolCalls = true) :
    agentLoopCore true runTool script 1 callIdx =
      ({ chunks := cs, fetches := 1, toolExecRounds := 0 },
       CoreEnd.maxIterationsHit) := by
  simp [agentLoopCore, hrr, htc]

theorem agentLoopCore_step (supportsTools : Bool) (runTool : AccTool → String)
    (script : Nat → RoundResp) (r callIdx : Nat)
    (cs : List Chunk) (st : ReaderState)
    (hrr : roundRead (script callIdx) = (cs, st, none))
    (htc : st.hadToolCalls = true) (hsupp : supportsTools = true) :
    agentLoopCore supportsTools runTool script (r + 2) callIdx =
      ({ chunks := cs ++
           (st.acc.map (·.2)).map
             (fun tc => ({ tool_result := some ⟨tc.id, runTool tc⟩ } : Chunk))
           ++ (agentLoopCore supportsTools runTool script (r + 1)
                (callIdx + 1)).1.chunks,
         fetches := 1 +
           (agentLoopCore supportsTools runTool script (r + 1)
             (callIdx + 1)).1.fetches,
         toolExecRounds := 1 +
           (agentLoopCore supportsTools runTool script (r + 1)
             (callIdx + 1)).1.toolExecRounds },
       (agentLoopCore supportsTools runTool script (r + 1) (callIdx + 1)).2) := by
  subst hsupp
  cases hres : agentLoopCore true runTool script (r + 1) (callIdx + 1) with
  | mk t e =>
    simp [agentLoopCore, hrr, htc, hres]

/-- C2 (amended): with the iteration bound at 2 (the setting defaults to 4),
tool use enabled, and every completion response requesting tool calls, the
loop issues exactly 2 completion requests but performs exactly ONE round of
tool execution — the bound is checked after incrementing the counter and
before executing, so the final round's tool calls are never executed — and
the turn terminates with the message marked complete. -/
theorem C2_max_iterations_two (runTool : AccTool → String)
    (script : Nat → RoundResp)
    (hscript : ∀ r, ∃ bs, script r = .stream bs ∧
      (readBatches {} bs).2.2 = StreamOut.ok ∧
      (readBatches {} bs).2.1.hadToolCalls = true) :
    maxToolIterationsSetting none = 4 ∧
    (handleIncomingMessage true runTool script 2).1.toolExecRounds = 1 ∧
    (handleIncomingMessage true runTool script 2).1.fetches = 2 ∧
    (handleIncomingMessage true runTool script 2).2 = TurnEnd.completed ∧
    (sendMessageOutcome
      (handleIncomingMessage true runTool script 2).1).complete = true := by
  obtain ⟨bs0, hs0, hok0, htc0⟩ := hscript 0
  obtain ⟨bs1, hs1, hok1, htc1⟩ := hscript 1
  cases hrb0 : readBatches {} bs0 with
  | mk cs0 rest0 =>
    cases rest0 with
    | mk st0 out0 =>
      cases hrb1 : readBatches {} bs1 with
      | mk cs1 rest1 =>
        cases rest1 with
        | mk st1 out1 =>
          rw [hrb0] at hok0 htc0
          rw [hrb1] at hok1 htc1
          simp only at hok0 htc0 hok1 htc1
          subst hok0
          subst hok1
          have hrr0 := roundRead_stream_ok script 0 bs0 cs0 st0 hs0 hrb0
          have hrr1 := roundRead_stream_ok script 1 bs1 cs1 st1 hs1 hrb1
          have h1 := agentLoopCore_one_left runTool script 1 cs1 st1 hrr1 htc1
          have h2 := agentLoopCore_step true runTool script 0 0 cs0 st0 hrr0
            htc0 rfl
          rw [h1] at h2
          unfold handleIncomingMessage
          rw [h2]
          exact ⟨rfl, rfl, rfl, rfl, rfl⟩

/-- Counterexample to C2 as stated: with `maxIterations = 2` and a model
that requests tool calls on every completion, the number of tool-execution
rounds is 1, not 2. -/
theorem C2_counterexample :
    ((handleIncomingMessage true (fun _ => "ok")
        (fun _ => RoundResp.stream
          [[LineItem.frame
              { choices :=
                  [{ delta := some
                       { tool_calls :=
                           some [{ index := 0, id := some "call_1",
                                   type_ := some "function",
                                   function := some
                                     { name := some "t",
                                       arguments := some "{}" } }] },
                     finish_reason := some "tool_calls" }] }]])
        2).1.toolExecRounds = 1) ∧
    ((handleIncomingMessage true (fun _ => "ok")
        (fun _ => RoundResp.stream
          [[LineItem.frame
              { choices :=
                  [{ delta := some
                       { tool_calls :=
                           some [{ index := 0, id := some "call_1",
                                   type_ := some "function",
                                   function := some
                                     { name := some "t",
                                       arguments := some "{}" } }] },
                     finish_reason := some "tool_calls" }] }]])
        2).1.toolExecRounds ≠ 2) := by
  constructor
  · decide
  · decide

/-- Witness for C2 (amended) at the constant always-tool-calls script. -/
theorem C2_witness :
    maxToolIterationsSetting none = 4 ∧
    (handleIncomingMessage true (fun _ => "ok")
        (fun _ => RoundResp.stream
          [[LineItem.frame
              { choices :=
                  [{ delta := some
                       { tool_calls :=
                           some [{ index := 1, id := some "call_2",
                                   type_ := some "function",
                                   function := some
                                     { name := some "t",
                                       arguments := some "{}" } }] },
                     finish_reason := some "tool_calls" }] }]])
        2).1.toolExecRounds = 1 ∧
    (handleIncomingMessage true (fun _ => "ok")
        (fun _ => RoundResp.stream
          [[LineItem.frame
              { choices :=
                  [{ delta := some
                       { tool_calls :=
                           some [{ index := 1, id := some "call_2",
                                   type_ := some "function",
                                   function := some
                                     { name := some "t",
                                       arguments := some "{}" } }] },
                     finish_reason := some "tool_calls" }] }]])
        2).1.fetches = 2 ∧
    (handleIncomingMessage true (fun _ => "ok")
        (fun _ => RoundResp.stream
          [[LineItem.frame
              { choices :=
                  [{ delta := some
                       { tool_calls :=
                           some [{ index := 1, id := some "call_2",
                                   type_ := some "function",
                                   function := some
                                     { name := some "t",
                                       arguments := some "{}" } }] },
                     finish_reason := some "tool_calls" }] }]])
        2).2 = TurnEnd.completed ∧
    (sendMessageOutcome
      (handleIncomingMessage true (fun _ => "ok")
        (fun _ => RoundResp.stream
          [[LineItem.frame
              { choices :=
                  [{ delta := some
                       { tool_calls :=
                           some [{ index := 1, id := some "call_2",
                                   type_ := some "function",
                                   function := some
                                     { name := some "t",
                                       arguments := some "{}" } }] },
                     finish_reason := some "tool_calls" }] }]])
        2).1).complete = true :=
  C2_max_iterations_two (fun _ => "ok")
    (fun _ => RoundResp.stream
      [[LineItem.frame
          { choices :=
              [{ delta := some
                   { tool_calls :=
                       some [{ index := 1, id := some "call_2",
                               type_ := some "function",
                               function := some
                                 { name := some "t",
                                   arguments := some "{}" } }] },
                 finish_reason := some "tool_calls" }] }]])
    (fun r =>
      ⟨[[LineItem.frame
          { choices :=
              [{ delta := some
                   { tool_calls :=
                       some [{ index := 1, id := some "call_2",
                               type_ := some "function",
                               function := some
                                 { name := some "t",
                                   arguments := some "{}" } }] },
                 finish_reason := some "tool_calls" }] }]],
        rfl, by decide, by decide⟩)

/-! ## Lemmas and claim theorems: cancellation (C9) -/

theorem agentLoopCore_threw (supportsTools : Bool) (runTool : AccTool → String)
    (script : Nat → RoundResp) (remaining callIdx : Nat)
    (cs : List Chunk) (st : ReaderState) (e : JsErr)
    (hrr : roundRead (script callIdx) = (cs, st, some e)) :
    agentLoopCore supportsTools runTool script remaining callIdx =
      ({ chunks := cs, fetches := 1, toolExecRounds := 0 },
       CoreEnd.threw e) := by
  rcases remaining with _ | _ | r <;> simp [agentLoopCore, hrr]

theorem agentLoopCore_fetches (supportsTools : Bool)
    (runTool : AccTool → String) (script : Nat → RoundResp) :
    ∀ remaining callIdx,
      (agentLoopCore supportsTools runTool script remaining callIdx).1.fetches =
        (agentLoopCore supportsTools runTool script remaining
          callIdx).1.toolExecRounds + 1 := by
  intro remaining
  induction remaining using Nat.strong_induction_on with
  | _ remaining ih =>
    intro callIdx
    rcases hrr : roundRead (script callIdx) with ⟨cs, st, err⟩
    rcases remaining with _ | _ | r
    · rcases err with _ | e
      · simp only [agentLoopCore, hrr]
        split <;> rfl
      · simp [agentLoopCore, hrr]
    · rcases err with _ | e
      · simp only [agentLoopCore, hrr]
        split <;> rfl
      · simp [agentLoopCore, hrr]
    · rcases err with _ | e
      · simp only [agentLoopCore, hrr]
        split
        · rfl
        · cases hres : agentLoopCore supportsTools runTool script (r + 1)
            (callIdx + 1) with
          | mk t e' =>
            have hih := ih (r + 1) (by omega) (callIdx + 1)
            rw [hres] at hih
            simp only [hres]
            simp only at hih ⊢
            omega
      · simp [agentLoopCore, hrr]

theorem agentLoopCore_script_agree (supportsTools : Bool)
    (runTool : AccTool → String) :
    ∀ remaining callIdx (script script₂ : Nat → RoundResp),
      (∀ j, callIdx ≤ j →
        j < callIdx +
          (agentLoopCore supportsTools runTool script remaining
            callIdx).1.fetches →
        script₂ j = script j) →
      agentLoopCore supportsTools runTool script₂ remaining callIdx =
        agentLoopCore supportsTools runTool script remaining callIdx := by
  intro remaining
  induction remaining using Nat.strong_induction_on with
  | _ remaining ih =>
    intro callIdx script script₂ hagree
    have hfet : 1 ≤ (agentLoopCore supportsTools runTool script remaining
        callIdx).1.fetches := by
      rw [agentLoopCore_fetches]
      omega
    have hself : script₂ callIdx = script callIdx :=
      hagree callIdx le_rfl (by omega)
    rcases hrr : roundRead (script callIdx) with ⟨cs, st, err⟩
    rcases remaining with _ | _ | r
    · simp only [agentLoopCore, hself, hrr]
    · simp only [agentLoopCore, hself, hrr]
    · rcases err with _ | e
      · simp only [agentLoopCore, hself, hrr]
        split
        · rfl
        · next hcond =>
          push_neg at hcond
          obtain ⟨htc, hsupp⟩ := hcond
          have hfull := agentLoopCore_step supportsTools runTool script r
            callIdx cs st hrr htc hsupp
          have hrec := ih (r + 1) (by omega) (callIdx + 1) script script₂
            (by
              intro j hj1 hj2
              apply hagree j (by omega)
              rw [hfull]
              simp only
              omega)
          rw [hrec]
      · simp only [agentLoopCore, hself, hrr]

/-- C9: whenever the external cancellation signal aborts the in-flight turn
(the generator's catch observes an `AbortError` and the wrapper returns the
`canceled` outcome), the yielded chunk sequence ends with the terminal
`"\n\n[STREAM CANCELED]"` content chunk; the generator returns normally (the
`catch` converts the abort into that yield, never rethrowing, which is why
`handleIncomingMessage` is total here); the message ends with
`complete = true` and content ending in the cancellation marker; the number
of completion calls issued is one more than the number of completed tool
rounds (the aborted call is the last); and the outcome does not depend on
any script round beyond those issued — no further completion round is
consulted. -/
theorem C9_cancellation_terminal (supportsTools : Bool)
    (runTool : AccTool → String) (script : Nat → RoundResp) (maxIter : Nat)
    (hend : (handleIncomingMessage supportsTools runTool script maxIter).2 =
      TurnEnd.canceled) :
    (∃ pre, (handleIncomingMessage supportsTools runTool script
        maxIter).1.chunks =
      pre ++ [{ content := some "\n\n[STREAM CANCELED]" }]) ∧
    (sendMessageOutcome (handleIncomingMessage supportsTools runTool script
      maxIter).1).complete = true ∧
    (∃ s, (sendMessageOutcome (handleIncomingMessage supportsTools runTool
        script maxIter).1).content = s ++ "[STREAM CANCELED]") ∧
    ((handleIncomingMessage supportsTools runTool script maxIter).1.fetches =
      (handleIncomingMessage supportsTools runTool script
        maxIter).1.toolExecRounds + 1) ∧
    (∀ script₂ : Nat → RoundResp,
      (∀ j, j < (handleIncomingMessage supportsTools runTool script
          maxIter).1.fetches → script₂ j = script j) →
      handleIncomingMessage supportsTools runTool script₂ maxIter =
        handleIncomingMessage supportsTools runTool script maxIter) := by
  have hfet := agentLoopCore_fetches supportsTools runTool script maxIter 0
  cases hcore : agentLoopCore supportsTools runTool script maxIter 0 with
  | mk t e =>
    rw [hcore] at hfet
    cases e with
    | finishedNormal =>
      exfalso
      unfold handleIncomingMessage at hend
      rw [hcore] at hend
      exact absurd hend (by simp)
    | maxIterationsHit =>
      exfalso
      unfold handleIncomingMessage at hend
      rw [hcore] at hend
      exact absurd hend (by simp)
    | threw err =>
      by_cases hname : err.name = "AbortError"
      · have hval : handleIncomingMessage supportsTools runTool script maxIter =
            ({ t with chunks := t.chunks ++
                [{ content := some "\n\n[STREAM CANCELED]" }] },
             TurnEnd.canceled) := by
          unfold handleIncomingMessage
          rw [hcore]
          simp [hname]
        refine ⟨⟨t.chunks, by rw [hval]⟩, by rw [hval]; rfl, ?_, by rw [hval]; exact hfet, ?_⟩
        · refine ⟨(t.chunks.foldl chunkContentFold "") ++ "\n\n", ?_⟩
          rw [hval]
          show (t.chunks ++
              [({ content := some "\n\n[STREAM CANCELED]" } : Chunk)]).foldl
                chunkContentFold "" = _
          rw [List.foldl_append]
          show (t.chunks.foldl chunkContentFold "") ++ "\n\n[STREAM CANCELED]"
            = _
          rw [String.append_assoc]
          congr 1
        · intro script₂ hagree
          have hcongr := agentLoopCore_script_agree supportsTools runTool
            maxIter 0 script script₂
            (by
              intro j _ hj
              apply hagree
              rw [hcore] at hj
              rw [hval]
              simpa using hj)
          unfold handleIncomingMessage
          rw [hcongr]
      · exfalso
        unfold handleIncomingMessage at hend
        rw [hcore] at hend
        simp [hname] at hend

/-- Witness for C9: a script whose very first round is aborted. -/
theorem C9_witness :
    (∃ pre, (handleIncomingMessage true (fun _ => "ok")
        (fun _ => RoundResp.aborted []) 4).1.chunks =
      pre ++ [{ content := some "\n\n[STREAM CANCELED]" }]) ∧
    (sendMessageOutcome (handleIncomingMessage true (fun _ => "ok")
      (fun _ => RoundResp.aborted []) 4).1).complete = true ∧
    (∃ s, (sendMessageOutcome (handleIncomingMessage true (fun _ => "ok")
        (fun _ => RoundResp.aborted []) 4).1).content =
      s ++ "[STREAM CANCELED]") ∧
    ((handleIncomingMessage true (fun _ => "ok")
        (fun _ => RoundResp.aborted []) 4).1.fetches =
      (handleIncomingMessage true (fun _ => "ok")
        (fun _ => RoundResp.aborted []) 4).1.toolExecRounds + 1) ∧
    (∀ script₂ : Nat → RoundResp,
      (∀ j, j < (handleIncomingMessage true (fun _ => "ok")
          (fun _ => RoundResp.aborted []) 4).1.fetches →
        script₂ j = (fun _ => RoundResp.aborted []) j) →
      handleIncomingMessage true (fun _ => "ok") script₂ 4 =
        handleIncomingMessage true (fun _ => "ok")
          (fun _ => RoundResp.aborted []) 4) :=
  C9_cancellation_terminal true (fun _ => "ok")
    (fun _ => RoundResp.aborted []) 4 (by decide)

end LinChat
